import Mathlib

/-!
Verification of the ECHONET Lite frame codec (`EchonetData`) of the
wisun-gateway repository.

The codec is embedded shallowly:
* byte buffers (`Buffer`) become `List Nat`, each entry intended `< 256`;
* JavaScript `bigint` property values become `Nat` (values are validated
  non-negative before use);
* a JavaScript `number` supplied as a property value becomes a rational
  (`ℚ`), on which `Number.isInteger` is the test `den = 1`;
* the draw of `Math.random()` becomes an explicit rational parameter `rand`
  with `0 ≤ rand < 1`;
* the fallible operations (`create`, `parse`, `toBuffer`, `getEdt`,
  `getEdtAsBigInt`) return `Except`/`Option`, `none`/`error` standing for a
  thrown exception.
-/

/-- A property entry of a frame: `epc` = property code, `pdc` = byte length
of the data, `edt` = property data as an unsigned big-endian integer.
Mirrors `interface EchonetProperty`. -/
structure EchonetProperty where
  epc : Nat
  pdc : Nat
  edt : Nat
deriving DecidableEq, Repr

/-- The immutable frame value: transaction id, source object, destination
object, service code and ordered property list.  Mirrors the fields of
`class EchonetData`. -/
structure EchonetData where
  tid : Nat
  seoj : Nat
  deoj : Nat
  esv : Nat
  properties : List EchonetProperty
deriving DecidableEq, Repr

/-- Big-endian value of a digit list in base `B`
(`foldl (acc * B + digit) 0`). -/
def digitsVal (B : Nat) (l : List Nat) : Nat :=
  l.foldl (fun acc d => acc * B + d) 0

/-- Big-endian value of a byte list; model of `Buffer.readUIntBE` and of
`BigInt("0x" + buffer.toString("hex"))`. -/
def beVal (l : List Nat) : Nat := digitsVal 256 l

/-- Big-endian value of a hex-digit list. -/
def hexVal (l : List Nat) : Nat := digitsVal 16 l

/-- The `k`-byte big-endian encoding of `n` (low-order `k` bytes); model of
`Buffer.writeUIntBE` / `writeUInt16BE` after their range checks. -/
def beBytes : Nat → Nat → List Nat
  | 0, _ => []
  | k + 1, n => beBytes k (n / 256) ++ [n % 256]

/-- Little-endian hex digits of `n`, with explicit fuel (the fuel is only
there to make the recursion structural; `fuel ≥ n` makes it exact). -/
def hexDigitsAux : Nat → Nat → List Nat
  | 0, _ => []
  | _ + 1, 0 => []
  | fuel + 1, n + 1 => ((n + 1) % 16) :: hexDigitsAux fuel ((n + 1) / 16)

/-- Big-endian hex digits of `n`; model of `bigint.toString(16)` (so `0`
gives the single digit `0`). -/
def hexDigits (n : Nat) : List Nat :=
  if n = 0 then [0] else (hexDigitsAux n n).reverse

/-- Number of hex digits of `n`; model of `edtBigInt.toString(16).length`. -/
def hexLen (n : Nat) : Nat := (hexDigits n).length

/-- Model of `Math.ceil(edtBigInt.toString(16).length / 2)`, the PDC
computed by `EchonetData.create`. -/
def calcPdc (n : Nat) : Nat := (hexLen n + 1) / 2

/-- Decode a hex-digit list into bytes, pairwise from the left, discarding a
trailing unpaired digit; model of `Buffer.from(hexString, "hex")`. -/
def pairsToBytes : List Nat → List Nat
  | a :: b :: rest => (a * 16 + b) :: pairsToBytes rest
  | _ => []

/-- The bytes emitted for one property value by `toBuffer` (lines 201-206):
allocate `pdc` bytes, build `edt.toString(16).padStart(pdc * 2, "0")`,
decode it as hex and `copy` the first `pdc` bytes into the field.
(`String.padStart` never truncates; `copy` stops at the target's size.) -/
def propBytes (pdc edt : Nat) : List Nat :=
  if pdc = 0 then []
  else (pairsToBytes (List.replicate (pdc * 2 - hexLen edt) 0 ++ hexDigits edt)).take pdc

/-- `len` elements of `l` starting at `off`. -/
def bslice (l : List Nat) (off len : Nat) : List Nat := (l.drop off).take len

/-- Model of `buffer.readUIntBE(off, len)` (and `readUInt16BE`/`readUInt8`):
fails when the read would run past the end of the buffer. -/
def readBE? (l : List Nat) (off len : Nat) : Option Nat :=
  if off + len ≤ l.length then some (beVal (bslice l off len)) else none

/-- The `edt` argument accepted by `EchonetData.create` for one property:
a JavaScript `number` (embedded as ℚ), a `bigint` (embedded as ℤ), or
omitted (`undefined`). -/
inductive EdtInput where
  | num (v : ℚ)
  | big (v : ℤ)
  | undef
deriving DecidableEq

/-- One element of the `properties` argument of `EchonetData.create`. -/
structure PropertyInput where
  epc : Nat
  edt : EdtInput
deriving DecidableEq

/-- The inputs `EchonetData.create` rejects: a `number` that is not a
non-negative integer, or a negative `bigint`. -/
def badEdt : EdtInput → Prop
  | .num v => v.den ≠ 1 ∨ v < 0
  | .big v => v < 0
  | .undef => False

instance : DecidablePred badEdt := by
  intro e
  cases e <;> simp [badEdt] <;> infer_instance

/-- The property-mapping body of `EchonetData.create` (lines 87-111):
validate the supplied `edt`, convert it to a big integer and compute the
minimal PDC. -/
def mkEchonetProperty (p : PropertyInput) : Except String EchonetProperty :=
  match p.edt with
  | .num v =>
    if ¬(v.den = 1) ∨ v < 0 then
      .error "TypeError: EDT must be a positive integer"
    else
      .ok ⟨p.epc, calcPdc v.num.toNat, v.num.toNat⟩
  | .big v =>
    if v < 0 then .error "RangeError: EDT must be a positive value"
    else .ok ⟨p.epc, calcPdc v.toNat, v.toNat⟩
  | .undef => .ok ⟨p.epc, calcPdc 0, 0⟩

/-- `properties.map(...)` inside `create`: left-to-right, the first thrown
validation error aborts the whole construction. -/
def mapProps : List PropertyInput → Except String (List EchonetProperty)
  | [] => .ok []
  | p :: rest =>
    match mkEchonetProperty p with
    | .error e => .error e
    | .ok q =>
      match mapProps rest with
      | .error e => .error e
      | .ok qs => .ok (q :: qs)

/-- Model of `EchonetData.create` (lines 65-113).  `rand` is the value
drawn by `Math.random()`; `randomTid = Math.floor(rand * 0xffff)` is used
when `tid` is omitted. -/
def EchonetData.create (tid : Option Nat) (rand : ℚ) (seoj deoj esv : Nat)
    (properties : List PropertyInput) : Except String EchonetData :=
  match mapProps properties with
  | .error e => .error e
  | .ok ps => .ok ⟨tid.getD (Rat.floor (rand * 0xffff)).toNat, seoj, deoj, esv, ps⟩

/-- The property-reading loop of `EchonetData.parse` (lines 129-159):
`off` is the running offset, the second argument the remaining OPC count. -/
def EchonetData.parseProps (frame : List Nat) : Nat → Nat → Option (List EchonetProperty)
  | _, 0 => some []
  | off, n + 1 =>
    if frame.length < off + 2 then none
    else if frame.length < off + 2 + beVal (bslice frame (off + 1) 1) then none
    else
      match EchonetData.parseProps frame (off + 2 + beVal (bslice frame (off + 1) 1)) n with
      | none => none
      | some ps =>
        some (⟨beVal (bslice frame off 1), beVal (bslice frame (off + 1) 1),
          beVal (bslice frame (off + 2) (beVal (bslice frame (off + 1) 1)))⟩ :: ps)

/-- Model of `EchonetData.parse` (lines 115-162).  The initial
`readUInt16BE(0)` fails on a buffer shorter than 2 bytes; then the header
and minimum-length checks run, the fixed fields are decoded big-endian and
the property list is read. -/
def EchonetData.parse (frame : List Nat) : Option EchonetData :=
  match readBE? frame 0 2 with
  | none => none
  | some header =>
    if header ≠ 0x1081 then none
    else if frame.length < 12 then none
    else
      match EchonetData.parseProps frame 12 (beVal (bslice frame 11 1)) with
      | none => none
      | some properties =>
        some ⟨beVal (bslice frame 2 2), beVal (bslice frame 4 3), beVal (bslice frame 7 3),
          beVal (bslice frame 10 1), properties⟩

/-- Model of `EchonetData.toBuffer` (lines 190-224).  `writeUInt16BE` /
`writeUIntBE` throw when the field does not fit its width, hence the guard;
`Buffer.from([x])` masks to one byte (`x % 256`). -/
def EchonetData.toBuffer (d : EchonetData) : Option (List Nat) :=
  if d.tid ≤ 0xffff ∧ d.seoj ≤ 0xffffff ∧ d.deoj ≤ 0xffffff then
    some (0x10 :: 0x81 ::
      (beBytes 2 d.tid ++ beBytes 3 d.seoj ++ beBytes 3 d.deoj ++
        [d.esv % 256] ++ [d.properties.length % 256] ++
        (d.properties.map fun p =>
          p.epc % 256 :: p.pdc % 256 :: propBytes p.pdc p.edt).flatten))
  else none

/-- Model of `EchonetData.getEdt` (lines 164-172). -/
def EchonetData.getEdt (d : EchonetData) (epc : Nat) : Except String Nat :=
  match d.properties.find? fun property => property.epc == epc with
  | none => .error "Property not found."
  | some property =>
    if property.pdc > 6 then .error "Cannot convert to number type."
    else .ok property.edt

/-- Model of `EchonetData.getEdtAsBigInt` (lines 174-180). -/
def EchonetData.getEdtAsBigInt (d : EchonetData) (epc : Nat) : Except String Nat :=
  match d.properties.find? fun property => property.epc == epc with
  | none => .error "Property not found."
  | some property => .ok property.edt

/-- Model of `EchonetData.isValidResponse` (lines 182-188). -/
def EchonetData.isValidResponse (d response : EchonetData) : Bool :=
  d.deoj == response.seoj && d.seoj == response.deoj && d.tid == response.tid

/-- Well-formedness of one property for the wire format: code and length
each fit one byte and the value fits in `pdc` bytes. -/
def propWf (p : EchonetProperty) : Prop :=
  p.epc < 256 ∧ p.pdc < 256 ∧ p.edt < 256 ^ p.pdc

/-- The byte encoding of a property list as produced by `toBuffer` on
well-formed properties and as consumed by the parse loop. -/
def propsEnc (ps : List EchonetProperty) : List Nat :=
  (ps.map fun p => p.epc :: p.pdc :: beBytes p.pdc p.edt).flatten

/-! ### Arithmetic of big-endian digit lists -/

lemma digitsVal_nil (B : Nat) : digitsVal B [] = 0 := rfl

lemma foldl_digits_init (B : Nat) :
    ∀ (l : List Nat) (a : Nat),
      l.foldl (fun x d => x * B + d) a = a * B ^ l.length + digitsVal B l := by
  intro l
  induction l with
  | nil => intro a; simp [digitsVal]
  | cons d t ih =>
    intro a
    show List.foldl _ (a * B + d) t = _
    rw [ih (a * B + d)]
    have h0 : digitsVal B (d :: t) = d * B ^ t.length + digitsVal B t := by
      show List.foldl _ (0 * B + d) t = _
      rw [ih (0 * B + d)]
      ring_nf
    rw [h0]
    simp [List.length_cons]
    ring

lemma digitsVal_cons (B d : Nat) (t : List Nat) :
    digitsVal B (d :: t) = d * B ^ t.length + digitsVal B t := by
  show List.foldl _ (0 * B + d) t = _
  rw [foldl_digits_init]
  ring_nf

lemma digitsVal_append (B : Nat) (l₁ l₂ : List Nat) :
    digitsVal B (l₁ ++ l₂) = digitsVal B l₁ * B ^ l₂.length + digitsVal B l₂ := by
  unfold digitsVal
  rw [List.foldl_append, foldl_digits_init]
  rfl

lemma digitsVal_singleton (B d : Nat) : digitsVal B [d] = d := by
  simp [digitsVal]

lemma digitsVal_lt (B : Nat) (hB : 0 < B) :
    ∀ (l : List Nat), (∀ d ∈ l, d < B) → digitsVal B l < B ^ l.length := by
  intro l
  induction l with
  | nil => intro _; simpa [digitsVal] using Nat.pos_pow_of_pos 0 hB
  | cons d t ih =>
    intro h
    have hd : d < B := h d (List.mem_cons_self d t)
    have ht : digitsVal B t < B ^ t.length := ih fun x hx => h x (List.mem_cons_of_mem d hx)
    rw [digitsVal_cons]
    calc d * B ^ t.length + digitsVal B t
        < d * B ^ t.length + B ^ t.length := by omega
      _ = (d + 1) * B ^ t.length := by ring
      _ ≤ B * B ^ t.length := Nat.mul_le_mul_right _ (by omega)
      _ = B ^ (d :: t).length := by rw [List.length_cons]; ring

lemma digitsVal_replicate_zero (B k : Nat) (l : List Nat) :
    digitsVal B (List.replicate k 0 ++ l) = digitsVal B l := by
  rw [digitsVal_append]
  have : digitsVal B (List.replicate k 0) = 0 := by
    induction k with
    | zero => rfl
    | succ m ih =>
      rw [List.replicate_succ, digitsVal_cons, ih]
      simp
  rw [this]
  simp

lemma digitsVal_take (B : Nat) (hB : 0 < B) (l : List Nat) (k : Nat)
    (hd : ∀ d ∈ l, d < B) (hk : k ≤ l.length) :
    digitsVal B (l.take k) = digitsVal B l / B ^ (l.length - k) := by
  have hsplit : l = l.take k ++ l.drop k := (List.take_append_drop k l).symm
  have hlen : (l.drop k).length = l.length - k := List.length_drop k l
  have hval : digitsVal B l
      = digitsVal B (l.take k) * B ^ (l.length - k) + digitsVal B (l.drop k) := by
    conv_lhs => rw [hsplit]
    rw [digitsVal_append, hlen]
  have hlt : digitsVal B (l.drop k) < B ^ (l.length - k) := by
    have := digitsVal_lt B hB (l.drop k) fun d hx => hd d (List.mem_of_mem_drop hx)
    rwa [hlen] at this
  rw [hval]
  have hp : 0 < B ^ (l.length - k) := Nat.pos_pow_of_pos _ hB
  rw [Nat.mul_comm, Nat.mul_add_div hp, Nat.div_eq_of_lt hlt]
  simp

/-! ### The fixed-width big-endian encoding `beBytes` -/

lemma beBytes_length (k n : Nat) : (beBytes k n).length = k := by
  induction k generalizing n with
  | zero => rfl
  | succ m ih => simp [beBytes, ih]

lemma beBytes_mem_lt (k n : Nat) : ∀ b ∈ beBytes k n, b < 256 := by
  induction k generalizing n with
  | zero => intro b hb; simp [beBytes] at hb
  | succ m ih =>
    intro b hb
    simp only [beBytes, List.mem_append, List.mem_singleton] at hb
    rcases hb with hb | hb
    · exact ih (n / 256) b hb
    · subst hb; exact Nat.mod_lt _ (by norm_num)

lemma beVal_beBytes (k n : Nat) (h : n < 256 ^ k) : beVal (beBytes k n) = n := by
  induction k generalizing n with
  | zero =>
    have : n = 0 := by simpa using h
    simp [this, beBytes, beVal, digitsVal]
  | succ m ih =>
    have hdiv : n / 256 < 256 ^ m := by
      rw [Nat.div_lt_iff_lt_mul (by norm_num : 0 < 256)]
      calc n < 256 ^ (m + 1) := h
        _ = 256 ^ m * 256 := by ring
    show digitsVal 256 (beBytes m (n / 256) ++ [n % 256]) = n
    rw [digitsVal_append, digitsVal_singleton]
    have : digitsVal 256 (beBytes m (n / 256)) = n / 256 := ih (n / 256) hdiv
    rw [this]
    simp only [List.length_singleton, pow_one]
    omega

lemma beBytes_beVal (l : List Nat) (h : ∀ b ∈ l, b < 256) :
    beBytes l.length (beVal l) = l := by
  induction l using List.reverseRecOn with
  | nil => rfl
  | append_singleton t b ih =>
    have hb : b < 256 := h b (by simp)
    have ht : ∀ x ∈ t, x < 256 := fun x hx => h x (by simp [hx])
    have hlen : (t ++ [b]).length = t.length + 1 := by simp
    rw [hlen]
    show beBytes t.length (beVal (t ++ [b]) / 256) ++ [beVal (t ++ [b]) % 256] = t ++ [b]
    have hval : beVal (t ++ [b]) = beVal t * 256 + b := by
      show digitsVal 256 (t ++ [b]) = _
      rw [digitsVal_append, digitsVal_singleton]
      show digitsVal 256 t * 256 ^ ([b].length) + b = _
      simp [beVal]
    rw [hval]
    have hdiv : (beVal t * 256 + b) / 256 = beVal t := by omega
    have hmod : (beVal t * 256 + b) % 256 = b := by omega
    rw [hdiv, hmod, ih ht]

lemma beVal_lt (l : List Nat) (h : ∀ b ∈ l, b < 256) : beVal l < 256 ^ l.length :=
  digitsVal_lt 256 (by norm_num) l h

/-! ### Hex digits of a natural number -/

lemma hexDigitsAux_eq_digits : ∀ (fuel n : Nat), n ≤ fuel → hexDigitsAux fuel n = Nat.digits 16 n := by
  intro fuel
  induction fuel with
  | zero =>
    intro n hn
    have : n = 0 := by omega
    simp [this, hexDigitsAux]
  | succ m ih =>
    intro n hn
    match n with
    | 0 => simp [hexDigitsAux]
    | k + 1 =>
      show ((k + 1) % 16) :: hexDigitsAux m ((k + 1) / 16) = _
      rw [Nat.digits_def' (by norm_num : (1:Nat) < 16) (Nat.succ_pos k)]
      have hdiv : (k + 1) / 16 ≤ m := by
        have : (k + 1) / 16 < k + 1 := Nat.div_lt_self (Nat.succ_pos k) (by norm_num)
        omega
      rw [ih _ hdiv]

lemma hexDigits_eq_digits (n : Nat) (hn : n ≠ 0) :
    hexDigits n = (Nat.digits 16 n).reverse := by
  unfold hexDigits
  rw [if_neg hn, hexDigitsAux_eq_digits n n le_rfl]

lemma hexDigits_mem_lt (n : Nat) : ∀ d ∈ hexDigits n, d < 16 := by
  by_cases hn : n = 0
  · subst hn; intro d hd; simp [hexDigits] at hd; omega
  · rw [hexDigits_eq_digits n hn]
    intro d hd
    rw [List.mem_reverse] at hd
    exact Nat.digits_lt_base (by norm_num) hd

lemma hexVal_reverse_ofDigits : ∀ (l : List Nat), hexVal l.reverse = Nat.ofDigits 16 l := by
  intro l
  induction l with
  | nil => rfl
  | cons d t ih =>
    rw [List.reverse_cons]
    show digitsVal 16 (t.reverse ++ [d]) = _
    rw [digitsVal_append, digitsVal_singleton, Nat.ofDigits_cons]
    have : digitsVal 16 t.reverse = Nat.ofDigits 16 t := ih
    rw [this]
    simp
    ring

lemma hexVal_hexDigits (n : Nat) : hexVal (hexDigits n) = n := by
  by_cases hn : n = 0
  · subst hn; rfl
  · rw [hexDigits_eq_digits n hn, hexVal_reverse_ofDigits, Nat.ofDigits_digits]

lemma hexLen_zero : hexLen 0 = 1 := rfl

lemma hexLen_pos (n : Nat) : 0 < hexLen n := by
  by_cases hn : n = 0
  · subst hn; norm_num [hexLen_zero]
  · unfold hexLen
    rw [hexDigits_eq_digits n hn]
    simp
    exact List.length_pos.mpr (Nat.digits_ne_nil_iff_ne_zero.mpr hn)

lemma hexLen_eq_log (n : Nat) (hn : n ≠ 0) : hexLen n = Nat.log 16 n + 1 := by
  unfold hexLen
  rw [hexDigits_eq_digits n hn, List.length_reverse]
  exact Nat.digits_len 16 n (by norm_num) hn

lemma lt_pow_hexLen (n : Nat) : n < 16 ^ hexLen n := by
  by_cases hn : n = 0
  · subst hn; norm_num [hexLen_zero]
  · rw [hexLen_eq_log n hn]
    exact Nat.lt_pow_succ_log_self (by norm_num) n

lemma pow_hexLen_pred_le (n : Nat) (hn : n ≠ 0) : 16 ^ (hexLen n - 1) ≤ n := by
  rw [hexLen_eq_log n hn]
  simpa using Nat.pow_log_le_self 16 hn

lemma hexLen_le_of_lt_pow (n k : Nat) (hk : 0 < k) (h : n < 16 ^ k) : hexLen n ≤ k := by
  by_cases hn : n = 0
  · subst hn; rw [hexLen_zero]; omega
  · rw [hexLen_eq_log n hn]
    have := Nat.log_lt_of_lt_pow hn h
    omega

lemma calcPdc_pos (n : Nat) : 0 < calcPdc n := by
  unfold calcPdc
  have := hexLen_pos n
  omega

lemma lt_pow_calcPdc (n : Nat) : n < 256 ^ calcPdc n := by
  have h1 : n < 16 ^ hexLen n := lt_pow_hexLen n
  have h2 : hexLen n ≤ 2 * calcPdc n := by unfold calcPdc; omega
  calc n < 16 ^ hexLen n := h1
    _ ≤ 16 ^ (2 * calcPdc n) := Nat.pow_le_pow_right (by norm_num) h2
    _ = 256 ^ calcPdc n := by
        rw [Nat.pow_mul]

lemma calcPdc_min (n : Nat) (hn : n ≠ 0) : 256 ^ (calcPdc n - 1) ≤ n := by
  have h1 : 16 ^ (hexLen n - 1) ≤ n := pow_hexLen_pred_le n hn
  have h2 : 2 * (calcPdc n - 1) ≤ hexLen n - 1 := by
    unfold calcPdc
    have := hexLen_pos n
    omega
  calc 256 ^ (calcPdc n - 1) = 16 ^ (2 * (calcPdc n - 1)) := by rw [Nat.pow_mul]
    _ ≤ 16 ^ (hexLen n - 1) := Nat.pow_le_pow_right (by norm_num) h2
    _ ≤ n := h1

/-! ### Pairwise hex decoding -/

lemma pairsToBytes_length : ∀ (l : List Nat), (pairsToBytes l).length = l.length / 2 := by
  intro l
  induction l using pairsToBytes.induct with
  | case1 a b rest ih =>
    show (pairsToBytes rest).length + 1 = _
    rw [ih]
    simp [List.length_cons]
    omega
  | case2 t h =>
    match t, h with
    | [], _ => simp [pairsToBytes]
    | [a], _ => simp [pairsToBytes]
    | a :: b :: r, h => exact absurd rfl (h a b r)

lemma pairsToBytes_mem_lt : ∀ (l : List Nat), (∀ d ∈ l, d < 16) →
    ∀ b ∈ pairsToBytes l, b < 256 := by
  intro l
  induction l using pairsToBytes.induct with
  | case1 a b rest ih =>
    intro hd x hx
    have ha : a < 16 := hd a (by simp)
    have hb : b < 16 := hd b (by simp)
    rcases List.mem_cons.mp hx with h | h
    · subst h; omega
    · exact ih (fun d hdm => hd d (by simp [hdm])) x h
  | case2 t h =>
    intro _ x hx
    match t, h with
    | [], _ => simp [pairsToBytes] at hx
    | [a], _ => simp [pairsToBytes] at hx
    | a :: b :: r, h => exact absurd rfl (h a b r)

lemma pairsToBytes_foldl : ∀ (l : List Nat), l.length % 2 = 0 →
    ∀ acc : Nat, (pairsToBytes l).foldl (fun x d => x * 256 + d) acc
      = l.foldl (fun x d => x * 16 + d) acc := by
  intro l
  induction l using pairsToBytes.induct with
  | case1 a b rest ih =>
    intro hlen acc
    have hrest : rest.length % 2 = 0 := by
      simp [List.length_cons] at hlen
      omega
    show List.foldl _ (acc * 256 + (a * 16 + b)) (pairsToBytes rest) = _
    rw [ih hrest]
    have : acc * 256 + (a * 16 + b) = (acc * 16 + a) * 16 + b := by ring
    rw [this]
    rfl
  | case2 t h =>
    intro hlen acc
    match t, h with
    | [], _ => rfl
    | [a], _ => simp at hlen
    | a :: b :: r, h => exact absurd rfl (h a b r)

lemma beVal_pairsToBytes (l : List Nat) (hlen : l.length % 2 = 0) :
    beVal (pairsToBytes l) = hexVal l :=
  pairsToBytes_foldl l hlen 0

lemma pairsToBytes_take_even : ∀ (l : List Nat),
    pairsToBytes l = pairsToBytes (l.take (2 * (l.length / 2))) := by
  intro l
  induction l using pairsToBytes.induct with
  | case1 a b rest ih =>
    have hlen : (a :: b :: rest).length = rest.length + 2 := by simp
    rw [hlen]
    have h2 : 2 * ((rest.length + 2) / 2) = 2 * (rest.length / 2) + 2 := by omega
    rw [h2]
    show (a * 16 + b) :: pairsToBytes rest
      = pairsToBytes (a :: b :: rest.take (2 * (rest.length / 2)))
    show _ = (a * 16 + b) :: pairsToBytes (rest.take (2 * (rest.length / 2)))
    rw [← ih]
  | case2 t h =>
    match t, h with
    | [], _ => simp [pairsToBytes]
    | [a], _ => simp [pairsToBytes]
    | a :: b :: r, h => exact absurd rfl (h a b r)

/-! ### The emitted property-value bytes -/

lemma propBytes_eq_beBytes (pdc edt : Nat) (h : edt < 256 ^ pdc) :
    propBytes pdc edt = beBytes pdc edt := by
  by_cases hp : pdc = 0
  · subst hp
    have : edt = 0 := by simpa using h
    simp [this, propBytes, beBytes]
  · have hpos : 0 < pdc := Nat.pos_of_ne_zero hp
    have hle : hexLen edt ≤ 2 * pdc := by
      apply hexLen_le_of_lt_pow edt (2 * pdc) (by omega)
      calc edt < 256 ^ pdc := h
        _ = 16 ^ (2 * pdc) := by rw [Nat.pow_mul]
    set l : List Nat := List.replicate (pdc * 2 - hexLen edt) 0 ++ hexDigits edt with hl
    have hllen : l.length = pdc * 2 := by
      rw [hl]
      have hlen_hex : (hexDigits edt).length = hexLen edt := rfl
      simp only [List.length_append, List.length_replicate, hlen_hex]
      omega
    have hlmem : ∀ d ∈ l, d < 16 := by
      intro d hd
      rw [hl] at hd
      rcases List.mem_append.mp hd with h' | h'
      · rw [List.eq_of_mem_replicate h']; norm_num
      · exact hexDigits_mem_lt edt d h'
    have hleven : l.length % 2 = 0 := by omega
    have hP_len : (pairsToBytes l).length = pdc := by
      rw [pairsToBytes_length, hllen]; omega
    have hP_val : beVal (pairsToBytes l) = edt := by
      rw [beVal_pairsToBytes l hleven]
      show hexVal l = edt
      rw [hl]
      show digitsVal 16 _ = edt
      rw [digitsVal_replicate_zero]
      exact hexVal_hexDigits edt
    have hP_mem : ∀ b ∈ pairsToBytes l, b < 256 := pairsToBytes_mem_lt l hlmem
    have hbe : beBytes pdc edt = pairsToBytes l := by
      have := beBytes_beVal (pairsToBytes l) hP_mem
      rw [hP_len, hP_val] at this
      exact this
    unfold propBytes
    rw [if_neg hp, ← hl, hbe]
    rw [← hP_len]
    exact List.take_length (pairsToBytes l)

lemma propBytes_length (pdc edt : Nat) (hpos : 0 < pdc) :
    (propBytes pdc edt).length = pdc := by
  unfold propBytes
  rw [if_neg (by omega : ¬ pdc = 0)]
  rw [List.length_take, pairsToBytes_length]
  have h1 : (List.replicate (pdc * 2 - hexLen edt) 0 ++ hexDigits edt).length
      = (pdc * 2 - hexLen edt) + hexLen edt := by
    simp [hexLen]
  rw [h1]
  omega

lemma propBytes_overflow_val (pdc edt : Nat) (hpos : 0 < pdc)
    (hov : 2 * pdc ≤ hexLen edt) :
    beVal (propBytes pdc edt)
      = edt / 16 ^ (hexLen edt % 2) / 256 ^ (hexLen edt / 2 - pdc) := by
  have hrep : pdc * 2 - hexLen edt = 0 := by omega
  have hpb : propBytes pdc edt = (pairsToBytes (hexDigits edt)).take pdc := by
    unfold propBytes
    rw [if_neg (by omega : ¬ pdc = 0), hrep]
    simp
  set h := hexLen edt with hh
  set l' := (hexDigits edt).take (2 * (h / 2)) with hl'
  have hlen_hex : (hexDigits edt).length = h := rfl
  have hl'len : l'.length = 2 * (h / 2) := by
    rw [hl', List.length_take, hlen_hex]
    omega
  have hl'mem : ∀ d ∈ l', d < 16 := fun d hd =>
    hexDigits_mem_lt edt d (List.mem_of_mem_take hd)
  have hP'mem : ∀ b ∈ pairsToBytes l', b < 256 := pairsToBytes_mem_lt l' hl'mem
  have hP'len : (pairsToBytes l').length = h / 2 := by
    rw [pairsToBytes_length, hl'len]
    omega
  have hstep1 : pairsToBytes (hexDigits edt) = pairsToBytes l' := by
    rw [hl', ← hlen_hex]
    exact pairsToBytes_take_even (hexDigits edt)
  have hP'val : beVal (pairsToBytes l') = edt / 16 ^ (h % 2) := by
    rw [beVal_pairsToBytes l' (by rw [hl'len]; omega)]
    show digitsVal 16 l' = _
    have := digitsVal_take 16 (by norm_num) (hexDigits edt) (2 * (h / 2))
      (hexDigits_mem_lt edt) (by rw [hlen_hex]; omega)
    rw [hl', this, hlen_hex]
    have hsub : h - 2 * (h / 2) = h % 2 := by omega
    rw [hsub]
    have : digitsVal 16 (hexDigits edt) = edt := hexVal_hexDigits edt
    rw [this]
  have htake : beVal ((pairsToBytes l').take pdc)
      = beVal (pairsToBytes l') / 256 ^ (h / 2 - pdc) := by
    have := digitsVal_take 256 (by norm_num) (pairsToBytes l') pdc hP'mem
      (by rw [hP'len]; omega)
    rw [hP'len] at this
    exact this
  rw [hpb, hstep1, htake, hP'val]

/-! ### List slicing helpers -/

lemma drop_append_plus {α : Type} (l₁ l₂ : List α) (k : Nat) :
    (l₁ ++ l₂).drop (l₁.length + k) = l₂.drop k := by
  rw [← List.drop_drop, List.drop_left]

lemma list_take_add {α : Type} (l : List α) (a b : Nat) :
    l.take (a + b) = l.take a ++ (l.drop a).take b := by
  induction a generalizing l with
  | zero => simp
  | succ m ih =>
    cases l with
    | nil => simp
    | cons x xs =>
      have : m + 1 + b = (m + b) + 1 := by omega
      rw [this]
      show x :: xs.take (m + b) = (x :: xs.take m) ++ (xs.drop m).take b
      rw [ih xs]
      rfl

lemma bslice_split (l : List Nat) (off a b : Nat) :
    bslice l off (a + b) = bslice l off a ++ bslice l (off + a) b := by
  unfold bslice
  rw [list_take_add, List.drop_drop]

lemma bslice_len (l : List Nat) (off n : Nat) (h : off + n ≤ l.length) :
    (bslice l off n).length = n := by
  unfold bslice
  rw [List.length_take, List.length_drop]
  omega

lemma bslice_mem (l : List Nat) (off n : Nat) :
    ∀ x ∈ bslice l off n, x ∈ l := fun x hx =>
  List.mem_of_mem_drop (List.mem_of_mem_take hx)

lemma beVal_singleton (x : Nat) : beVal [x] = x := by
  simp [beVal, digitsVal]

lemma singleton_of_length_one (l : List Nat) (h : l.length = 1) :
    l = [beVal l] := by
  match l, h with
  | [x], _ => rw [beVal_singleton]

lemma bslice_one_eq (l : List Nat) (off : Nat) (h : off + 1 ≤ l.length) :
    bslice l off 1 = [beVal (bslice l off 1)] :=
  singleton_of_length_one _ (bslice_len l off 1 h)

/-! ### The encoded property section parses back -/

lemma propsEnc_cons (p : EchonetProperty) (t : List EchonetProperty) :
    propsEnc (p :: t) = (p.epc :: p.pdc :: beBytes p.pdc p.edt) ++ propsEnc t := by
  unfold propsEnc
  rw [List.map_cons, List.flatten_cons]

lemma parseProps_encode : ∀ (ps : List EchonetProperty) (pre : List Nat),
    (∀ p ∈ ps, propWf p) →
    EchonetData.parseProps (pre ++ propsEnc ps) pre.length ps.length = some ps := by
  intro ps
  induction ps with
  | nil => intro pre _; rfl
  | cons p t ih =>
    intro pre hwf
    obtain ⟨hepc, hpdc, hedt⟩ := hwf p (List.mem_cons_self p t)
    set enc : List Nat := p.epc :: p.pdc :: beBytes p.pdc p.edt with henc
    set l : List Nat := pre ++ propsEnc (p :: t) with hldef
    have hsplit : l = pre ++ (enc ++ propsEnc t) := by
      rw [hldef, propsEnc_cons, henc]
    have henclen : enc.length = 2 + p.pdc := by
      rw [henc]
      simp [beBytes_length]
      omega
    have hllen : l.length = pre.length + 2 + p.pdc + (propsEnc t).length := by
      rw [hsplit]
      simp [henclen]
      omega
    have hdrop0 : l.drop pre.length = enc ++ propsEnc t := by
      rw [hsplit]
      exact List.drop_left pre _
    have hepc_read : beVal (bslice l pre.length 1) = p.epc := by
      unfold bslice
      rw [hdrop0, henc]
      show beVal [p.epc] = p.epc
      exact beVal_singleton p.epc
    have hpdc_read : beVal (bslice l (pre.length + 1) 1) = p.pdc := by
      unfold bslice
      have : l.drop (pre.length + 1) = p.pdc :: (beBytes p.pdc p.edt ++ propsEnc t) := by
        rw [hsplit, drop_append_plus, henc]
        simp
      rw [this]
      show beVal [p.pdc] = p.pdc
      exact beVal_singleton p.pdc
    have hedt_read : beVal (bslice l (pre.length + 2) p.pdc) = p.edt := by
      unfold bslice
      have hdrop2 : l.drop (pre.length + 2) = beBytes p.pdc p.edt ++ propsEnc t := by
        rw [hsplit, drop_append_plus, henc]
        simp
      rw [hdrop2, List.take_left' (beBytes_length p.pdc p.edt)]
      exact beVal_beBytes p.pdc p.edt hedt
    have hrec : EchonetData.parseProps l (pre.length + 2 + p.pdc) t.length = some t := by
      have hpre' : (pre ++ enc).length = pre.length + 2 + p.pdc := by
        simp [henclen]
        omega
      have hl' : l = (pre ++ enc) ++ propsEnc t := by
        rw [hsplit, List.append_assoc]
      rw [hl', ← hpre']
      exact ih (pre ++ enc) fun q hq => hwf q (List.mem_cons_of_mem p hq)
    show EchonetData.parseProps l pre.length (t.length + 1) = some (p :: t)
    rw [EchonetData.parseProps]
    rw [if_neg (by omega : ¬ l.length < pre.length + 2)]
    rw [hpdc_read]
    rw [if_neg (by omega : ¬ l.length < pre.length + 2 + p.pdc)]
    rw [hrec, hepc_read, hedt_read]

/-! ### Inverting `create` -/

lemma mkEchonetProperty_pdc (p : PropertyInput) (q : EchonetProperty)
    (h : mkEchonetProperty p = .ok q) : q.pdc = calcPdc q.edt := by
  obtain ⟨epc, edt⟩ := p
  cases edt with
  | num v =>
    simp only [mkEchonetProperty] at h
    split_ifs at h
    injection h with h'
    subst h'
    rfl
  | big v =>
    simp only [mkEchonetProperty] at h
    split_ifs at h
    injection h with h'
    subst h'
    rfl
  | undef =>
    simp only [mkEchonetProperty] at h
    injection h with h'
    subst h'
    rfl

lemma mapProps_pdc : ∀ (ps : List PropertyInput) (qs : List EchonetProperty),
    mapProps ps = .ok qs → ∀ q ∈ qs, q.pdc = calcPdc q.edt := by
  intro ps
  induction ps with
  | nil =>
    intro qs h q hq
    injection h with h'
    subst h'
    simp at hq
  | cons p rest ih =>
    intro qs h q hq
    unfold mapProps at h
    cases hmk : mkEchonetProperty p with
    | error e =>
      simp only [hmk] at h
      exact Except.noConfusion h
    | ok q₀ =>
      simp only [hmk] at h
      cases hmp : mapProps rest with
      | error e =>
        simp only [hmp] at h
        exact Except.noConfusion h
      | ok qs₀ =>
        simp only [hmp] at h
        injection h with h'
        subst h'
        rcases List.mem_cons.mp hq with h' | h'
        · subst h'; exact mkEchonetProperty_pdc p q hmk
        · exact ih qs₀ hmp q h'

lemma create_ok (tid : Option Nat) (rand : ℚ) (seoj deoj esv : Nat)
    (props : List PropertyInput) (F : EchonetData)
    (h : EchonetData.create tid rand seoj deoj esv props = .ok F) :
    mapProps props = .ok F.properties ∧
      F = ⟨tid.getD (Rat.floor (rand * 0xffff)).toNat, seoj, deoj, esv, F.properties⟩ := by
  unfold EchonetData.create at h
  cases hmp : mapProps props with
  | error e =>
    simp only [hmp] at h
    exact Except.noConfusion h
  | ok ps =>
    simp only [hmp] at h
    injection h with h'
    subst h'
    exact ⟨rfl, rfl⟩

lemma create_inv (tid : Option Nat) (rand : ℚ) (seoj deoj esv : Nat)
    (props : List PropertyInput) (F : EchonetData)
    (h : EchonetData.create tid rand seoj deoj esv props = .ok F) :
    ∀ q ∈ F.properties, q.pdc = calcPdc q.edt ∧ q.edt < 256 ^ q.pdc := by
  intro q hq
  have hpdc := mapProps_pdc props F.properties (create_ok _ _ _ _ _ _ _ h).1 q hq
  refine ⟨hpdc, ?_⟩
  rw [hpdc]
  exact lt_pow_calcPdc q.edt

/-! ### The canonical encoding and the round trip -/

/-- The byte list `toBuffer` produces on a frame whose fields all fit their
wire widths. -/
def encodeFrame (d : EchonetData) : List Nat :=
  0x10 :: 0x81 :: (beBytes 2 d.tid ++ beBytes 3 d.seoj ++ beBytes 3 d.deoj ++
    [d.esv] ++ [d.properties.length] ++ propsEnc d.properties)

lemma encodeFrame_length (d : EchonetData) :
    (encodeFrame d).length = 12 + (propsEnc d.properties).length := by
  unfold encodeFrame
  simp [beBytes_length]
  omega

lemma toBuffer_wf (d : EchonetData) (htid : d.tid ≤ 0xffff) (hseoj : d.seoj ≤ 0xffffff)
    (hdeoj : d.deoj ≤ 0xffffff) (hesv : d.esv < 256) (hopc : d.properties.length ≤ 255)
    (hwf : ∀ p ∈ d.properties, propWf p) :
    EchonetData.toBuffer d = some (encodeFrame d) := by
  unfold EchonetData.toBuffer encodeFrame
  rw [if_pos ⟨htid, hseoj, hdeoj⟩]
  have hesv' : d.esv % 256 = d.esv := Nat.mod_eq_of_lt hesv
  have hopc' : d.properties.length % 256 = d.properties.length :=
    Nat.mod_eq_of_lt (by omega)
  have hmap : (d.properties.map fun p => p.epc % 256 :: p.pdc % 256 :: propBytes p.pdc p.edt)
      = d.properties.map fun p => p.epc :: p.pdc :: beBytes p.pdc p.edt := by
    apply List.map_congr_left
    intro p hp
    obtain ⟨h1, h2, h3⟩ := hwf p hp
    rw [Nat.mod_eq_of_lt h1, Nat.mod_eq_of_lt h2, propBytes_eq_beBytes p.pdc p.edt h3]
  rw [hesv', hopc', hmap]
  rfl

lemma parse_unfold (frame : List Nat) (hlen2 : 2 ≤ frame.length)
    (hh : beVal (bslice frame 0 2) = 0x1081) (h12 : ¬ frame.length < 12) :
    EchonetData.parse frame
      = match EchonetData.parseProps frame 12 (beVal (bslice frame 11 1)) with
        | none => none
        | some properties =>
          some ⟨beVal (bslice frame 2 2), beVal (bslice frame 4 3), beVal (bslice frame 7 3),
            beVal (bslice frame 10 1), properties⟩ := by
  unfold EchonetData.parse readBE?
  rw [if_pos (show 0 + 2 ≤ frame.length by omega)]
  show (if beVal (bslice frame 0 2) ≠ 0x1081 then none
    else if frame.length < 12 then none
    else match EchonetData.parseProps frame 12 (beVal (bslice frame 11 1)) with
      | none => none
      | some properties =>
        some (EchonetData.mk (beVal (bslice frame 2 2)) (beVal (bslice frame 4 3))
          (beVal (bslice frame 7 3)) (beVal (bslice frame 10 1)) properties))
    = match EchonetData.parseProps frame 12 (beVal (bslice frame 11 1)) with
      | none => none
      | some properties =>
        some (EchonetData.mk (beVal (bslice frame 2 2)) (beVal (bslice frame 4 3))
          (beVal (bslice frame 7 3)) (beVal (bslice frame 10 1)) properties)
  rw [hh]
  rw [if_neg (by norm_num)]
  rw [if_neg h12]

lemma parse_encodeFrame (d : EchonetData) (htid : d.tid ≤ 0xffff) (hseoj : d.seoj ≤ 0xffffff)
    (hdeoj : d.deoj ≤ 0xffffff) (hesv : d.esv < 256) (hopc : d.properties.length ≤ 255)
    (hwf : ∀ p ∈ d.properties, propWf p) :
    EchonetData.parse (encodeFrame d) = some d := by
  set T := beBytes 2 d.tid with hT
  set S := beBytes 3 d.seoj with hS
  set D := beBytes 3 d.deoj with hD
  set P := propsEnc d.properties with hP
  set buf := encodeFrame d with hbuf
  have hTlen : T.length = 2 := beBytes_length 2 d.tid
  have hSlen : S.length = 3 := beBytes_length 3 d.seoj
  have hDlen : D.length = 3 := beBytes_length 3 d.deoj
  have hlen : buf.length = 12 + P.length := encodeFrame_length d
  have h2 : buf.drop 2 = T ++ (S ++ (D ++ ([d.esv] ++ ([d.properties.length] ++ P)))) := by
    rw [hbuf]
    show (beBytes 2 d.tid ++ beBytes 3 d.seoj ++ beBytes 3 d.deoj ++
      [d.esv] ++ [d.properties.length] ++ propsEnc d.properties) = _
    simp only [List.append_assoc, hT, hS, hD, hP]
  have h4 : buf.drop 4 = S ++ (D ++ ([d.esv] ++ ([d.properties.length] ++ P))) := by
    have e1 : buf.drop 4 = (buf.drop 2).drop 2 := by
      rw [List.drop_drop]
    rw [e1, h2, List.drop_left' hTlen]
  have h7 : buf.drop 7 = D ++ ([d.esv] ++ ([d.properties.length] ++ P)) := by
    have e1 : buf.drop 7 = (buf.drop 4).drop 3 := by
      rw [List.drop_drop]
    rw [e1, h4, List.drop_left' hSlen]
  have h10 : buf.drop 10 = [d.esv] ++ ([d.properties.length] ++ P) := by
    have e1 : buf.drop 10 = (buf.drop 7).drop 3 := by
      rw [List.drop_drop]
    rw [e1, h7, List.drop_left' hDlen]
  have h11 : buf.drop 11 = [d.properties.length] ++ P := by
    have e1 : buf.drop 11 = (buf.drop 10).drop 1 := by
      rw [List.drop_drop]
    rw [e1, h10]
    rfl
  have h12 : buf.drop 12 = P := by
    have e1 : buf.drop 12 = (buf.drop 11).drop 1 := by
      rw [List.drop_drop]
    rw [e1, h11]
    rfl
  have hread_tid : beVal (bslice buf 2 2) = d.tid := by
    unfold bslice
    rw [h2, List.take_left' hTlen, hT]
    exact beVal_beBytes 2 d.tid (by omega)
  have hread_seoj : beVal (bslice buf 4 3) = d.seoj := by
    unfold bslice
    rw [h4, List.take_left' hSlen, hS]
    exact beVal_beBytes 3 d.seoj (by omega)
  have hread_deoj : beVal (bslice buf 7 3) = d.deoj := by
    unfold bslice
    rw [h7, List.take_left' hDlen, hD]
    exact beVal_beBytes 3 d.deoj (by omega)
  have hread_esv : beVal (bslice buf 10 1) = d.esv := by
    unfold bslice
    rw [h10]
    show beVal [d.esv] = d.esv
    exact beVal_singleton d.esv
  have hread_opc : beVal (bslice buf 11 1) = d.properties.length := by
    unfold bslice
    rw [h11]
    show beVal [d.properties.length] = d.properties.length
    exact beVal_singleton d.properties.length
  have hheader : beVal (bslice buf 0 2) = 0x1081 := by
    have hsl : bslice buf 0 2 = [0x10, 0x81] := by
      unfold bslice
      rw [List.drop_zero, hbuf]
      rfl
    rw [hsl]
    rfl
  have hprops : EchonetData.parseProps buf 12 d.properties.length = some d.properties := by
    have hpre : buf = (buf.take 12) ++ P := by
      conv_lhs => rw [← List.take_append_drop 12 buf, h12]
    have hprelen : (buf.take 12).length = 12 := by
      rw [List.length_take]
      omega
    conv_lhs => rw [hpre, ← hprelen]
    exact parseProps_encode d.properties (buf.take 12) hwf
  rw [parse_unfold buf (by omega) hheader (by omega)]
  rw [hread_opc, hprops, hread_tid, hread_seoj, hread_deoj, hread_esv]

/-! ### Inverting a successful parse -/

lemma propsEnc_nil : propsEnc [] = [] := rfl

lemma parseProps_decode : ∀ (n : Nat) (l : List Nat) (off : Nat) (ps : List EchonetProperty),
    (∀ b ∈ l, b < 256) → off ≤ l.length →
    EchonetData.parseProps l off n = some ps →
    ps.length = n ∧ (∀ p ∈ ps, propWf p) ∧
      ∃ k, off + k ≤ l.length ∧ bslice l off k = propsEnc ps := by
  intro n
  induction n with
  | zero =>
    intro l off ps hbytes hoff h
    injection h with h'
    subst h'
    refine ⟨rfl, by simp, 0, by omega, ?_⟩
    simp [bslice, propsEnc]
  | succ m ih =>
    intro l off ps hbytes hoff h
    rw [EchonetData.parseProps] at h
    by_cases h1 : l.length < off + 2
    · rw [if_pos h1] at h; exact Option.noConfusion h
    rw [if_neg h1] at h
    by_cases h2 : l.length < off + 2 + beVal (bslice l (off + 1) 1)
    · rw [if_pos h2] at h; exact Option.noConfusion h
    rw [if_neg h2] at h
    set epcv := beVal (bslice l off 1) with hepcv
    set pdcv := beVal (bslice l (off + 1) 1) with hpdcv
    set edtv := beVal (bslice l (off + 2) pdcv) with hedtv
    cases hrec : EchonetData.parseProps l (off + 2 + pdcv) m with
    | none => rw [hrec] at h; simp at h
    | some t =>
      rw [hrec] at h
      injection h with h'
      obtain ⟨hlen_t, hwf_t, k', hk'le, hk'⟩ :=
        ih l (off + 2 + pdcv) t hbytes (by omega) hrec
      have hsl_epc : bslice l off 1 = [epcv] := bslice_one_eq l off (by omega)
      have hsl_pdc : bslice l (off + 1) 1 = [pdcv] := bslice_one_eq l (off + 1) (by omega)
      have hepc_lt : epcv < 256 := by
        apply hbytes
        apply bslice_mem l off 1
        rw [hsl_epc]
        exact List.mem_singleton_self epcv
      have hpdc_lt : pdcv < 256 := by
        apply hbytes
        apply bslice_mem l (off + 1) 1
        rw [hsl_pdc]
        exact List.mem_singleton_self pdcv
      have hsl_edt_len : (bslice l (off + 2) pdcv).length = pdcv :=
        bslice_len l (off + 2) pdcv (by omega)
      have hedt_lt : edtv < 256 ^ pdcv := by
        have := beVal_lt (bslice l (off + 2) pdcv) fun b hb =>
          hbytes b (bslice_mem l (off + 2) pdcv b hb)
        rwa [hsl_edt_len] at this
      have hsl_edt : bslice l (off + 2) pdcv = beBytes pdcv edtv := by
        have := beBytes_beVal (bslice l (off + 2) pdcv) fun b hb =>
          hbytes b (bslice_mem l (off + 2) pdcv b hb)
        rw [hsl_edt_len] at this
        exact this.symm
      subst h'
      refine ⟨by simp [hlen_t], ?_, 2 + pdcv + k', by omega, ?_⟩
      · intro p hp
        rcases List.mem_cons.mp hp with hp' | hp'
        · subst hp'
          exact ⟨hepc_lt, hpdc_lt, hedt_lt⟩
        · exact hwf_t p hp'
      · have hs1 : bslice l off (2 + pdcv + k')
            = bslice l off 1 ++ bslice l (off + 1) (1 + (pdcv + k')) := by
          have e : 2 + pdcv + k' = 1 + (1 + (pdcv + k')) := by omega
          rw [e]
          exact bslice_split l off 1 (1 + (pdcv + k'))
        have hs2 : bslice l (off + 1) (1 + (pdcv + k'))
            = bslice l (off + 1) 1 ++ bslice l (off + 1 + 1) (pdcv + k') :=
          bslice_split l (off + 1) 1 (pdcv + k')
        have hs3 : bslice l (off + 1 + 1) (pdcv + k')
            = bslice l (off + 1 + 1) pdcv ++ bslice l (off + 1 + 1 + pdcv) k' :=
          bslice_split l (off + 1 + 1) pdcv k'
        have e2 : off + 1 + 1 = off + 2 := by omega
        rw [hs1, hs2, hs3, e2, hsl_epc, hsl_pdc, hsl_edt]
        have e3 : off + 2 + pdcv = off + 2 + pdcv := rfl
        rw [hk']
        rw [propsEnc_cons]
        simp

lemma parse_some_inv (l : List Nat) (F : EchonetData) (h : EchonetData.parse l = some F) :
    2 ≤ l.length ∧ beVal (bslice l 0 2) = 0x1081 ∧ 12 ≤ l.length ∧
    F.tid = beVal (bslice l 2 2) ∧ F.seoj = beVal (bslice l 4 3) ∧
    F.deoj = beVal (bslice l 7 3) ∧ F.esv = beVal (bslice l 10 1) ∧
    EchonetData.parseProps l 12 (beVal (bslice l 11 1)) = some F.properties := by
  unfold EchonetData.parse readBE? at h
  by_cases hl2 : 0 + 2 ≤ l.length
  case neg => rw [if_neg hl2] at h; exact Option.noConfusion h
  rw [if_pos hl2] at h
  have h' : (if beVal (bslice l 0 2) ≠ 0x1081 then none
      else if l.length < 12 then none
      else match EchonetData.parseProps l 12 (beVal (bslice l 11 1)) with
        | none => none
        | some properties =>
          some (EchonetData.mk (beVal (bslice l 2 2)) (beVal (bslice l 4 3))
            (beVal (bslice l 7 3)) (beVal (bslice l 10 1)) properties)) = some F := h
  by_cases hh : beVal (bslice l 0 2) ≠ 0x1081
  · rw [if_pos hh] at h'; exact Option.noConfusion h'
  rw [if_neg hh] at h'
  by_cases h12 : l.length < 12
  · rw [if_pos h12] at h'; exact Option.noConfusion h'
  rw [if_neg h12] at h'
  cases hpp : EchonetData.parseProps l 12 (beVal (bslice l 11 1)) with
  | none => rw [hpp] at h'; simp at h'
  | some props =>
    rw [hpp] at h'
    injection h' with h''
    subst h''
    push_neg at hh
    refine ⟨by omega, hh, by omega, rfl, rfl, rfl, rfl, ?_⟩
    rfl

lemma parse_toBuffer_prefix (l : List Nat) (F : EchonetData)
    (hbytes : ∀ b ∈ l, b < 256) (h : EchonetData.parse l = some F) :
    EchonetData.toBuffer F = some (encodeFrame F) ∧
      ∃ t, l = encodeFrame F ++ t := by
  obtain ⟨hl2, hhdr, hl12, htid, hseoj, hdeoj, hesv, hpp⟩ := parse_some_inv l F h
  have hbV : ∀ off len, off + len ≤ l.length → beVal (bslice l off len) < 256 ^ len := by
    intro off len hle
    have := beVal_lt (bslice l off len) fun b hb => hbytes b (bslice_mem l off len b hb)
    rwa [bslice_len l off len hle] at this
  have hsl : ∀ off len, off + len ≤ l.length →
      bslice l off len = beBytes len (beVal (bslice l off len)) := by
    intro off len hle
    have := beBytes_beVal (bslice l off len) fun b hb => hbytes b (bslice_mem l off len b hb)
    rw [bslice_len l off len hle] at this
    exact this.symm
  have hopc_lt : beVal (bslice l 11 1) < 256 := by
    have := hbV 11 1 (by omega)
    simpa using this
  obtain ⟨hlen_ps, hwf_ps, k, hk_le, hk⟩ :=
    parseProps_decode (beVal (bslice l 11 1)) l 12 F.properties hbytes (by omega) hpp
  have htid_lt : F.tid < 65536 := by rw [htid]; exact hbV 2 2 (by omega)
  have hseoj_lt : F.seoj < 16777216 := by rw [hseoj]; exact hbV 4 3 (by omega)
  have hdeoj_lt : F.deoj < 16777216 := by rw [hdeoj]; exact hbV 7 3 (by omega)
  have hesv_lt : F.esv < 256 := by
    rw [hesv]
    have := hbV 10 1 (by omega)
    simpa using this
  have hps_le : F.properties.length ≤ 255 := by omega
  have htb : EchonetData.toBuffer F = some (encodeFrame F) :=
    toBuffer_wf F (by omega) (by omega) (by omega) hesv_lt hps_le hwf_ps
  refine ⟨htb, l.drop (12 + k), ?_⟩
  have h02 : bslice l 0 2 = [0x10, 0x81] := by
    rw [hsl 0 2 (by omega), hhdr]
    decide
  have h22 : bslice l 2 2 = beBytes 2 F.tid := by rw [hsl 2 2 (by omega), htid]
  have h43 : bslice l 4 3 = beBytes 3 F.seoj := by rw [hsl 4 3 (by omega), hseoj]
  have h73 : bslice l 7 3 = beBytes 3 F.deoj := by rw [hsl 7 3 (by omega), hdeoj]
  have h101 : bslice l 10 1 = [F.esv] := by
    rw [bslice_one_eq l 10 (by omega), hesv]
  have h111 : bslice l 11 1 = [F.properties.length] := by
    rw [bslice_one_eq l 11 (by omega), ← hlen_ps]
  have hs1 : bslice l 0 (12 + k) = bslice l 0 2 ++ bslice l 2 (10 + k) := by
    have e : 12 + k = 2 + (10 + k) := by omega
    rw [e]
    have := bslice_split l 0 2 (10 + k)
    simpa using this
  have hs2 : bslice l 2 (10 + k) = bslice l 2 2 ++ bslice l 4 (8 + k) := by
    have e : 10 + k = 2 + (8 + k) := by omega
    rw [e]
    have := bslice_split l 2 2 (8 + k)
    simpa using this
  have hs3 : bslice l 4 (8 + k) = bslice l 4 3 ++ bslice l 7 (5 + k) := by
    have e : 8 + k = 3 + (5 + k) := by omega
    rw [e]
    have := bslice_split l 4 3 (5 + k)
    simpa using this
  have hs4 : bslice l 7 (5 + k) = bslice l 7 3 ++ bslice l 10 (2 + k) := by
    have e : 5 + k = 3 + (2 + k) := by omega
    rw [e]
    have := bslice_split l 7 3 (2 + k)
    simpa using this
  have hs5 : bslice l 10 (2 + k) = bslice l 10 1 ++ bslice l 11 (1 + k) := by
    have e : 2 + k = 1 + (1 + k) := by omega
    rw [e]
    have := bslice_split l 10 1 (1 + k)
    simpa using this
  have hs6 : bslice l 11 (1 + k) = bslice l 11 1 ++ bslice l 12 k := by
    have := bslice_split l 11 1 k
    simpa using this
  have hfront : bslice l 0 (12 + k) = encodeFrame F := by
    rw [hs1, hs2, hs3, hs4, hs5, hs6, h02, h22, h43, h73, h101, h111, hk]
    unfold encodeFrame
    simp [List.append_assoc]
  have hpre : l = bslice l 0 (12 + k) ++ l.drop (12 + k) := by
    unfold bslice
    rw [List.drop_zero]
    exact (List.take_append_drop (12 + k) l).symm
  rw [← hfront]
  exact hpre

/-! ### Accessor and validation helpers -/

lemma find_first_match (code : Nat) :
    ∀ (pre : List EchonetProperty) (q : EchonetProperty) (post : List EchonetProperty),
      (∀ p ∈ pre, p.epc ≠ code) → q.epc = code →
      (pre ++ q :: post).find? (fun p => p.epc == code) = some q := by
  intro pre
  induction pre with
  | nil =>
    intro q post _ hq
    exact List.find?_cons_of_pos _ (by simp [hq])
  | cons p rest ih =>
    intro q post hmiss hq
    rw [List.cons_append]
    rw [List.find?_cons_of_neg _ (by simp [hmiss p (List.mem_cons_self p rest)])]
    exact ih q post (fun x hx => hmiss x (List.mem_cons_of_mem p hx)) hq

lemma mkEchonetProperty_error_iff (p : PropertyInput) :
    (∃ e, mkEchonetProperty p = .error e) ↔ badEdt p.edt := by
  obtain ⟨epc, edt⟩ := p
  cases edt with
  | num v =>
    show (∃ e, mkEchonetProperty ⟨epc, .num v⟩ = .error e) ↔ (v.den ≠ 1 ∨ v < 0)
    simp only [mkEchonetProperty]
    by_cases hc : ¬(v.den = 1) ∨ v < 0
    · rw [if_pos hc]
      simp only [Except.error.injEq, exists_eq']
      tauto
    · rw [if_neg hc]
      constructor
      · rintro ⟨e, he⟩
        exact Except.noConfusion he
      · intro hcontra
        exact absurd (by tauto) hc
  | big v =>
    show (∃ e, mkEchonetProperty ⟨epc, .big v⟩ = .error e) ↔ v < 0
    simp only [mkEchonetProperty]
    by_cases hc : v < 0
    · rw [if_pos hc]
      simp only [Except.error.injEq, exists_eq']
      tauto
    · rw [if_neg hc]
      constructor
      · rintro ⟨e, he⟩
        exact Except.noConfusion he
      · intro hcontra
        exact absurd hcontra hc
  | undef =>
    show (∃ e, mkEchonetProperty ⟨epc, .undef⟩ = .error e) ↔ False
    simp only [mkEchonetProperty]
    constructor
    · rintro ⟨e, he⟩
      exact Except.noConfusion he
    · intro hcontra
      exact hcontra.elim

lemma mapProps_error_iff : ∀ (ps : List PropertyInput),
    (∃ e, mapProps ps = .error e) ↔ ∃ p ∈ ps, badEdt p.edt := by
  intro ps
  induction ps with
  | nil =>
    constructor
    · rintro ⟨e, he⟩
      exact Except.noConfusion he
    · rintro ⟨p, hp, _⟩
      simp at hp
  | cons p rest ih =>
    constructor
    · rintro ⟨e, he⟩
      unfold mapProps at he
      cases hmk : mkEchonetProperty p with
      | error e' =>
        exact ⟨p, List.mem_cons_self p rest,
          (mkEchonetProperty_error_iff p).mp ⟨e', hmk⟩⟩
      | ok q =>
        simp only [hmk] at he
        cases hmp : mapProps rest with
        | error e' =>
          obtain ⟨x, hx, hbad⟩ := ih.mp ⟨e', hmp⟩
          exact ⟨x, List.mem_cons_of_mem p hx, hbad⟩
        | ok qs =>
          simp only [hmp] at he
          exact Except.noConfusion he
    · rintro ⟨x, hx, hbad⟩
      rcases List.mem_cons.mp hx with hx' | hx'
      · subst hx'
        obtain ⟨e, he⟩ := (mkEchonetProperty_error_iff x).mpr hbad
        refine ⟨e, ?_⟩
        unfold mapProps
        rw [he]
      · obtain ⟨e, he⟩ := ih.mpr ⟨x, hx', hbad⟩
        unfold mapProps
        cases hmk : mkEchonetProperty p with
        | error e' => exact ⟨e', rfl⟩
        | ok q =>
          rw [he]
          exact ⟨e, rfl⟩

deriving instance DecidableEq for Except

lemma isValidResponse_iff (self cand : EchonetData) :
    EchonetData.isValidResponse self cand = true ↔
      (cand.seoj = self.deoj ∧ cand.deoj = self.seoj ∧ cand.tid = self.tid) := by
  unfold EchonetData.isValidResponse
  simp only [Bool.and_eq_true, beq_iff_eq]
  constructor
  · rintro ⟨⟨h1, h2⟩, h3⟩
    exact ⟨h1.symm, h2.symm, h3.symm⟩
  · rintro ⟨h1, h2, h3⟩
    exact ⟨⟨h1.symm, h2.symm⟩, h3.symm⟩

/-- C4: `isValidResponse(self, candidate)` returns true iff
`candidate.seoj = self.deoj`, `candidate.deoj = self.seoj` and
`candidate.tid = self.tid`; the candidate's service code and property list
never affect the result, and changing any single one of the three compared
fields of a valid candidate makes the result false. -/
theorem c4_isValidResponse_spec (self cand : EchonetData) (esv' : Nat)
    (ps' : List EchonetProperty) (x : Nat) :
    (EchonetData.isValidResponse self cand = true ↔
      (cand.seoj = self.deoj ∧ cand.deoj = self.seoj ∧ cand.tid = self.tid)) ∧
    (EchonetData.isValidResponse self { cand with esv := esv', properties := ps' }
      = EchonetData.isValidResponse self cand) ∧
    (EchonetData.isValidResponse self cand = true → x ≠ cand.seoj →
      EchonetData.isValidResponse self { cand with seoj := x } = false) ∧
    (EchonetData.isValidResponse self cand = true → x ≠ cand.deoj →
      EchonetData.isValidResponse self { cand with deoj := x } = false) ∧
    (EchonetData.isValidResponse self cand = true → x ≠ cand.tid →
      EchonetData.isValidResponse self { cand with tid := x } = false) := by
  refine ⟨isValidResponse_iff self cand, rfl, ?_, ?_, ?_⟩
  · intro hv hne
    rw [Bool.eq_false_iff]
    intro hc
    obtain ⟨ha, _, _⟩ := (isValidResponse_iff self _).mp hc
    obtain ⟨hb, _, _⟩ := (isValidResponse_iff self cand).mp hv
    exact hne (ha.trans hb.symm)
  · intro hv hne
    rw [Bool.eq_false_iff]
    intro hc
    obtain ⟨_, ha, _⟩ := (isValidResponse_iff self _).mp hc
    obtain ⟨_, hb, _⟩ := (isValidResponse_iff self cand).mp hv
    exact hne (ha.trans hb.symm)
  · intro hv hne
    rw [Bool.eq_false_iff]
    intro hc
    obtain ⟨_, _, ha⟩ := (isValidResponse_iff self _).mp hc
    obtain ⟨_, _, hb⟩ := (isValidResponse_iff self cand).mp hv
    exact hne (ha.trans hb.symm)

/-- Witness for C4 at a concrete request/response pair. -/
theorem c4_isValidResponse_spec_witness :
    EchonetData.isValidResponse ⟨7, 1, 2, 0x62, []⟩ ⟨7, 2, 1, 0x72, [⟨1, 1, 5⟩]⟩ = true ∧
    EchonetData.isValidResponse ⟨7, 1, 2, 0x62, []⟩
      { (⟨7, 2, 1, 0x72, [⟨1, 1, 5⟩]⟩ : EchonetData) with seoj := 9 } = false := by
  have h := c4_isValidResponse_spec ⟨7, 1, 2, 0x62, []⟩ ⟨7, 2, 1, 0x72, [⟨1, 1, 5⟩]⟩ 0 [] 9
  refine ⟨h.1.mpr (by decide), ?_⟩
  exact h.2.2.1 (h.1.mpr (by decide)) (by decide)

/-- C6: construction fails with a validation error precisely when some
supplied property value is a non-integer or negative `number`, or a
negative `bigint`; with only non-negative integer (or omitted) values it
returns a frame. -/
theorem c6_create_validation (tid : Option Nat) (rand : ℚ) (seoj deoj esv : Nat)
    (props : List PropertyInput) :
    (∃ e, EchonetData.create tid rand seoj deoj esv props = .error e) ↔
      ∃ p ∈ props, badEdt p.edt := by
  constructor
  · rintro ⟨e, he⟩
    unfold EchonetData.create at he
    cases hmp : mapProps props with
    | error e' => exact (mapProps_error_iff props).mp ⟨e', hmp⟩
    | ok ps =>
      simp only [hmp] at he
      exact Except.noConfusion he
  · intro hbad
    obtain ⟨e, he⟩ := (mapProps_error_iff props).mpr hbad
    refine ⟨e, ?_⟩
    unfold EchonetData.create
    rw [he]

/-- C7: `getEdt` fails with the lookup error exactly when no property has
the requested code, fails with the range error when the first matching
property is wider than 6 bytes, and otherwise returns the first match's
value; `getEdtAsBigInt` does the same lookup with no width restriction. -/
theorem c7_accessors (d : EchonetData) (code : Nat) :
    ((∀ p ∈ d.properties, p.epc ≠ code) →
      d.getEdt code = .error "Property not found." ∧
      d.getEdtAsBigInt code = .error "Property not found.") ∧
    (∀ pre q post, d.properties = pre ++ q :: post → q.epc = code →
      (∀ p ∈ pre, p.epc ≠ code) →
      d.getEdtAsBigInt code = .ok q.edt ∧
      (6 < q.pdc → d.getEdt code = .error "Cannot convert to number type.") ∧
      (q.pdc ≤ 6 → d.getEdt code = .ok q.edt)) := by
  constructor
  · intro hmiss
    have hfind : d.properties.find? (fun p => p.epc == code) = none :=
      List.find?_eq_none.mpr fun x hx => by simp [hmiss x hx]
    constructor
    · unfold EchonetData.getEdt
      rw [hfind]
    · unfold EchonetData.getEdtAsBigInt
      rw [hfind]
  · intro pre q post hsplit hq hmiss
    have hfind : d.properties.find? (fun p => p.epc == code) = some q := by
      rw [hsplit]
      exact find_first_match code pre q post hmiss hq
    refine ⟨?_, ?_, ?_⟩
    · unfold EchonetData.getEdtAsBigInt
      rw [hfind]
    · intro h6
      unfold EchonetData.getEdt
      rw [hfind]
      show (if q.pdc > 6 then (Except.error "Cannot convert to number type." : Except String Nat)
        else .ok q.edt) = _
      rw [if_pos h6]
    · intro h6
      unfold EchonetData.getEdt
      rw [hfind]
      show (if q.pdc > 6 then (Except.error "Cannot convert to number type." : Except String Nat)
        else .ok q.edt) = _
      rw [if_neg (by omega)]

/-- Witness for C7: absent code, wide first match, and narrow match on a
concrete frame. -/
theorem c7_accessors_witness :
    EchonetData.getEdt ⟨0, 0, 0, 0, [⟨1, 7, 5⟩, ⟨2, 1, 9⟩]⟩ 3 = .error "Property not found." ∧
    EchonetData.getEdtAsBigInt ⟨0, 0, 0, 0, [⟨1, 7, 5⟩, ⟨2, 1, 9⟩]⟩ 1 = .ok 5 ∧
    EchonetData.getEdt ⟨0, 0, 0, 0, [⟨1, 7, 5⟩, ⟨2, 1, 9⟩]⟩ 1
      = .error "Cannot convert to number type." ∧
    EchonetData.getEdt ⟨0, 0, 0, 0, [⟨1, 7, 5⟩, ⟨2, 1, 9⟩]⟩ 2 = .ok 9 := by
  have h3 := (c7_accessors ⟨0, 0, 0, 0, [⟨1, 7, 5⟩, ⟨2, 1, 9⟩]⟩ 3).1 (by decide)
  have h1 := (c7_accessors ⟨0, 0, 0, 0, [⟨1, 7, 5⟩, ⟨2, 1, 9⟩]⟩ 1).2
    [] ⟨1, 7, 5⟩ [⟨2, 1, 9⟩] rfl rfl (by simp)
  have h2 := (c7_accessors ⟨0, 0, 0, 0, [⟨1, 7, 5⟩, ⟨2, 1, 9⟩]⟩ 2).2
    [⟨1, 7, 5⟩] ⟨2, 1, 9⟩ [] rfl rfl (by decide)
  exact ⟨h3.1, h1.1, h1.2.1 (by norm_num), h2.2.2 (by norm_num)⟩

/-- C9: the spec's end-to-end example: the 14 bytes parse to the stated
frame and that frame serializes back to the identical bytes. -/
theorem c9_example_roundtrip :
    EchonetData.parse
        [0x10, 0x81, 0x00, 0x01, 0x05, 0xFF, 0x01, 0x02, 0x88, 0x01, 0x62, 0x01, 0xE7, 0x00]
      = some ⟨0x0001, 0x05FF01, 0x028801, 0x62, [⟨0xE7, 0, 0⟩]⟩ ∧
    EchonetData.toBuffer ⟨0x0001, 0x05FF01, 0x028801, 0x62, [⟨0xE7, 0, 0⟩]⟩
      = some [0x10, 0x81, 0x00, 0x01, 0x05, 0xFF, 0x01, 0x02, 0x88, 0x01, 0x62, 0x01, 0xE7, 0x00] := by
  decide

/-- C5: the length computed at construction is the ceiling of the hex digit
count over 2, which is the minimal byte count for the value; an omitted
value becomes value 0 with length 1, and value 0 itself yields length 1. -/
theorem c5_minimal_length (tid : Option Nat) (rand : ℚ) (seoj deoj esv : Nat)
    (props : List PropertyInput) (F : EchonetData)
    (h : EchonetData.create tid rand seoj deoj esv props = .ok F) :
    (∀ p ∈ F.properties, p.pdc = (hexLen p.edt + 1) / 2 ∧
      (p.edt = 0 → p.pdc = 1) ∧ p.edt < 256 ^ p.pdc ∧
      (p.edt ≠ 0 → 256 ^ (p.pdc - 1) ≤ p.edt)) ∧
    (∀ c, mkEchonetProperty ⟨c, .undef⟩ = .ok ⟨c, 1, 0⟩) := by
  constructor
  · intro p hp
    have hpdc := mapProps_pdc props F.properties (create_ok _ _ _ _ _ _ _ h).1 p hp
    refine ⟨by rw [hpdc]; rfl, ?_, ?_, ?_⟩
    · intro h0
      rw [hpdc, h0]
      decide
    · rw [hpdc]
      exact lt_pow_calcPdc p.edt
    · intro h0
      rw [hpdc]
      exact calcPdc_min p.edt h0
  · intro c
    show mkEchonetProperty ⟨c, .undef⟩ = .ok ⟨c, 1, 0⟩
    have h1 : calcPdc 0 = 1 := by decide
    unfold mkEchonetProperty
    rw [h1]

/-- Witness for C5 at the spec's examples 0, 255, 256 and an omitted
value (the frame below is the output of `create` on those four inputs). -/
theorem c5_minimal_length_witness :
    ((2:Nat) = (hexLen 256 + 1) / 2 ∧ ((256:Nat) = 0 → (2:Nat) = 1) ∧
      (256:Nat) < 256 ^ 2 ∧ ((256:Nat) ≠ 0 → 256 ^ (2 - 1) ≤ 256)) ∧
    ((1:Nat) = (hexLen 255 + 1) / 2) ∧ ((1:Nat) = (hexLen 0 + 1) / 2) ∧
    mkEchonetProperty ⟨4, .undef⟩ = .ok ⟨4, 1, 0⟩ := by
  have h := c5_minimal_length (some 0) 0 0 0 0
    [⟨1, .num 0⟩, ⟨2, .num 255⟩, ⟨3, .big 256⟩, ⟨4, .undef⟩]
    ⟨0, 0, 0, 0, [⟨1, 1, 0⟩, ⟨2, 1, 255⟩, ⟨3, 2, 256⟩, ⟨4, 1, 0⟩]⟩ (by decide)
  exact ⟨h.1 ⟨3, 2, 256⟩ (by decide), (h.1 ⟨2, 1, 255⟩ (by decide)).1,
    (h.1 ⟨1, 1, 0⟩ (by decide)).1, h.2 4⟩

/-- C10: every frame the public interface can produce — by `create` or by
`parse` on a byte buffer — has every property value in `[0, 256 ^ pdc)`. -/
theorem c10_value_width_invariant (tid : Option Nat) (rand : ℚ) (seoj deoj esv : Nat)
    (props : List PropertyInput) (l : List Nat) (F G : EchonetData) :
    (EchonetData.create tid rand seoj deoj esv props = .ok F →
      ∀ p ∈ F.properties, p.edt < 256 ^ p.pdc) ∧
    ((∀ b ∈ l, b < 256) → EchonetData.parse l = some G →
      ∀ p ∈ G.properties, p.edt < 256 ^ p.pdc) := by
  constructor
  · intro h p hp
    exact (create_inv tid rand seoj deoj esv props F h p hp).2
  · intro hbytes h p hp
    obtain ⟨_, _, hl12, _, _, _, _, hpp⟩ := parse_some_inv l G h
    obtain ⟨_, hwf, _⟩ :=
      parseProps_decode (beVal (bslice l 11 1)) l 12 G.properties hbytes (by omega) hpp
    exact (hwf p hp).2.2

/-- Witness for C10 on a created frame and on the parsed example frame. -/
theorem c10_value_width_invariant_witness :
    (256:Nat) < 256 ^ 2 ∧ (0:Nat) < 256 ^ 0 := by
  have h := c10_value_width_invariant (some 0) 0 0 0 0 [⟨1, .big 256⟩]
    [0x10, 0x81, 0x00, 0x01, 0x05, 0xFF, 0x01, 0x02, 0x88, 0x01, 0x62, 0x01, 0xE7, 0x00]
    ⟨0, 0, 0, 0, [⟨1, 2, 256⟩]⟩ ⟨0x0001, 0x05FF01, 0x028801, 0x62, [⟨0xE7, 0, 0⟩]⟩
  exact ⟨h.1 (by decide) ⟨1, 2, 256⟩ (by decide),
    h.2 (by decide) (by decide) ⟨0xE7, 0, 0⟩ (by decide)⟩

/-- C8: the spec claims the generated transaction id is uniform over
`[0, 0xFFFF]` inclusive, and the code's own comment agrees; but
`Math.floor(Math.random() * 0xffff)` lies in `[0, 0xFFFE]` for every draw
`rand ∈ [0, 1)` — the id `0xFFFF` is never produced. -/
theorem c8_random_tid_never_max (rand : ℚ) (seoj deoj esv : Nat)
    (props : List PropertyInput) (F : EchonetData)
    (h0 : 0 ≤ rand) (h1 : rand < 1)
    (h : EchonetData.create none rand seoj deoj esv props = .ok F) :
    F.tid < 0xffff := by
  have hF := (create_ok none rand seoj deoj esv props F h).2
  have htid : F.tid = (Rat.floor (rand * 0xffff)).toNat := by
    conv_lhs => rw [hF]
    rfl
  have hfl : Rat.floor (rand * 0xffff) = ⌊rand * (0xffff : ℚ)⌋ := by
    rw [Rat.floor_def', Rat.floor_def]
  have hlt : ⌊rand * (0xffff : ℚ)⌋ < (0xffff : ℤ) := by
    rw [Int.floor_lt]
    push_cast
    have := mul_lt_mul_of_pos_right h1 (show (0:ℚ) < 65535 by norm_num)
    simpa using this
  rw [htid, hfl]
  omega

/-- Witness for C8 at the draw `rand = 1/2`. -/
theorem c8_random_tid_never_max_witness :
    (⟨(Rat.floor ((1/2 : ℚ) * 0xffff)).toNat, 0, 0, 0, []⟩ : EchonetData).tid < 0xffff :=
  c8_random_tid_never_max (1/2) 0 0 0 []
    ⟨(Rat.floor ((1/2 : ℚ) * 0xffff)).toNat, 0, 0, 0, []⟩
    (by norm_num) (by norm_num) rfl

set_option maxRecDepth 100000

/-- C1 counterexample: a frame returned by `create` that satisfies every
condition of the claim (transaction id in 16 bits, objects in 24 bits,
service code and property codes in 8 bits, at most 255 properties) whose
serialization does not parse back to it: its single property value
`16 ^ 510` gets computed length 256, which overflows the one-byte PDC
field (`256 % 256 = 0`), so parsing reads a zero-length property. -/
theorem c1_roundtrip_counterexample :
    EchonetData.create (some 0) 0 0 0 0 [⟨1, .big (16 ^ 510)⟩]
      = .ok ⟨0, 0, 0, 0, [⟨1, 256, 16 ^ 510⟩]⟩ ∧
    (⟨0, 0, 0, 0, [⟨1, 256, 16 ^ 510⟩]⟩ : EchonetData).tid < 2 ^ 16 ∧
    (⟨0, 0, 0, 0, [⟨1, 256, 16 ^ 510⟩]⟩ : EchonetData).seoj < 2 ^ 24 ∧
    (⟨0, 0, 0, 0, [⟨1, 256, 16 ^ 510⟩]⟩ : EchonetData).deoj < 2 ^ 24 ∧
    (⟨0, 0, 0, 0, [⟨1, 256, 16 ^ 510⟩]⟩ : EchonetData).esv < 2 ^ 8 ∧
    (1 : Nat) < 2 ^ 8 ∧
    (⟨0, 0, 0, 0, [⟨1, 256, 16 ^ 510⟩]⟩ : EchonetData).properties.length ≤ 255 ∧
    Option.bind (EchonetData.toBuffer ⟨0, 0, 0, 0, [⟨1, 256, 16 ^ 510⟩]⟩) EchonetData.parse
      ≠ some ⟨0, 0, 0, 0, [⟨1, 256, 16 ^ 510⟩]⟩ := by
  decide

/-- C1 (amended): for every frame returned by `create` whose transaction id
fits 16 bits, objects fit 24 bits, service code fits 8 bits, property codes
fit 8 bits, whose property list has at most 255 entries, AND whose computed
property lengths all fit 8 bits, serializing and re-parsing returns an
identical frame. -/
theorem c1_create_roundtrip_amended (tid : Option Nat) (rand : ℚ) (seoj deoj esv : Nat)
    (props : List PropertyInput) (F : EchonetData)
    (hc : EchonetData.create tid rand seoj deoj esv props = .ok F)
    (htid : F.tid ≤ 0xffff) (hseoj : F.seoj ≤ 0xffffff) (hdeoj : F.deoj ≤ 0xffffff)
    (hesv : F.esv < 256)
    (hprops : ∀ p ∈ F.properties, p.epc < 256 ∧ p.pdc ≤ 255)
    (hopc : F.properties.length ≤ 255) :
    EchonetData.toBuffer F = some (encodeFrame F) ∧
      EchonetData.parse (encodeFrame F) = some F := by
  have hwf : ∀ p ∈ F.properties, propWf p := by
    intro p hp
    obtain ⟨h1, h2⟩ := hprops p hp
    exact ⟨h1, by omega, (create_inv _ _ _ _ _ _ _ hc p hp).2⟩
  exact ⟨toBuffer_wf F htid hseoj hdeoj hesv hopc hwf,
    parse_encodeFrame F htid hseoj hdeoj hesv hopc hwf⟩

/-- Witness for the amended C1 on a concrete created frame. -/
theorem c1_create_roundtrip_amended_witness :
    EchonetData.toBuffer ⟨1, 0x05FF01, 0x028801, 0x62, [⟨0xE7, 1, 0⟩]⟩
      = some (encodeFrame ⟨1, 0x05FF01, 0x028801, 0x62, [⟨0xE7, 1, 0⟩]⟩) ∧
    EchonetData.parse (encodeFrame ⟨1, 0x05FF01, 0x028801, 0x62, [⟨0xE7, 1, 0⟩]⟩)
      = some ⟨1, 0x05FF01, 0x028801, 0x62, [⟨0xE7, 1, 0⟩]⟩ :=
  c1_create_roundtrip_amended (some 1) 0 0x05FF01 0x028801 0x62 [⟨0xE7, .undef⟩]
    ⟨1, 0x05FF01, 0x028801, 0x62, [⟨0xE7, 1, 0⟩]⟩
    (by decide) (by decide) (by decide) (by decide) (by decide) (by decide) (by decide)

/-- C2 counterexample: parsing ignores trailing bytes, so `toBuffer` after
`parse` is not the exact inverse: a 13-byte buffer with one byte after the
last property parses successfully, but re-serializing drops that byte. -/
theorem c2_parse_exact_inverse_counterexample :
    EchonetData.parse [0x10, 0x81, 0, 0, 0, 0, 0, 0, 0, 0, 0, 0, 0xAB]
      = some ⟨0, 0, 0, 0, []⟩ ∧
    EchonetData.toBuffer ⟨0, 0, 0, 0, []⟩
      = some [0x10, 0x81, 0, 0, 0, 0, 0, 0, 0, 0, 0, 0] ∧
    ([0x10, 0x81, 0, 0, 0, 0, 0, 0, 0, 0, 0, 0] : List Nat)
      ≠ [0x10, 0x81, 0, 0, 0, 0, 0, 0, 0, 0, 0, 0, 0xAB] := by
  decide

/-- C2 (amended): for every byte buffer `b` accepted by `parse`,
serializing the resulting frame reproduces exactly the consumed portion of
`b`: `toBuffer(parse(b))` is a prefix of `b` (equal to `b` exactly when no
bytes trail the last parsed property). -/
theorem c2_parse_prefix_roundtrip (l : List Nat) (F : EchonetData)
    (hbytes : ∀ b ∈ l, b < 256) (h : EchonetData.parse l = some F) :
    ∃ buf t, EchonetData.toBuffer F = some buf ∧ l = buf ++ t := by
  obtain ⟨htb, t, ht⟩ := parse_toBuffer_prefix l F hbytes h
  exact ⟨encodeFrame F, t, htb, ht⟩

/-- Witness for the amended C2 on the 13-byte buffer with a trailing byte. -/
theorem c2_parse_prefix_roundtrip_witness :
    ∃ buf t, EchonetData.toBuffer ⟨0, 0, 0, 0, []⟩ = some buf ∧
      ([0x10, 0x81, 0, 0, 0, 0, 0, 0, 0, 0, 0, 0, 0xAB] : List Nat) = buf ++ t :=
  c2_parse_prefix_roundtrip [0x10, 0x81, 0, 0, 0, 0, 0, 0, 0, 0, 0, 0, 0xAB]
    ⟨0, 0, 0, 0, []⟩ (by decide) (by decide)

/-- C3 counterexample: the claim says the low-order bytes survive
(value mod 256^length); in fact serializing a property with length 1 and
value 0x1234 emits the HIGH byte 0x12, not 0x34 = 0x1234 mod 256. -/
theorem c3_low_order_truncation_counterexample :
    (256 : Nat) ^ 1 ≤ 0x1234 ∧
    EchonetData.toBuffer ⟨0, 0, 0, 0, [⟨0xE7, 1, 0x1234⟩]⟩
      = some [0x10, 0x81, 0, 0, 0, 0, 0, 0, 0, 0, 0, 1, 0xE7, 1, 0x12] ∧
    (0x1234 : Nat) % 256 ^ 1 = 0x34 ∧ (0x12 : Nat) ≠ 0x34 := by
  decide

/-- C3 (amended): for a property whose value needs more than `length`
bytes, serialization still emits exactly `length` bytes, but they are the
HIGH-order bytes: the value's hex digits are decoded in pairs from the left
(a trailing unpaired digit is dropped) and the first `length` bytes are
kept, so the emitted field encodes
`value / 16 ^ (hexLen value % 2) / 256 ^ (hexLen value / 2 - length)`;
the low-order bytes are silently dropped. -/
theorem c3_high_order_truncation (pdc edt : Nat) (hpos : 0 < pdc)
    (hov : 256 ^ pdc ≤ edt) :
    (propBytes pdc edt).length = pdc ∧
    beVal (propBytes pdc edt)
      = edt / 16 ^ (hexLen edt % 2) / 256 ^ (hexLen edt / 2 - pdc) := by
  have h2 : 2 * pdc ≤ hexLen edt := by
    by_contra hcon
    push_neg at hcon
    have hlt := lt_pow_hexLen edt
    have hle : (16:Nat) ^ hexLen edt ≤ 16 ^ (2 * pdc) :=
      Nat.pow_le_pow_right (by norm_num) (by omega)
    have h256 : (16:Nat) ^ (2 * pdc) = 256 ^ pdc := by
      rw [Nat.pow_mul]
    omega
  exact ⟨propBytes_length pdc edt hpos, propBytes_overflow_val pdc edt hpos h2⟩

/-- Witness for the amended C3 at length 1, value 0x1234. -/
theorem c3_high_order_truncation_witness :
    (propBytes 1 0x1234).length = 1 ∧
    beVal (propBytes 1 0x1234)
      = 0x1234 / 16 ^ (hexLen 0x1234 % 2) / 256 ^ (hexLen 0x1234 / 2 - 1) :=
  c3_high_order_truncation 1 0x1234 (by decide) (by decide)
